import Mathlib

/-!
Verification development for the GHS hymn-search program (`GHS_Searcher.py`).

The Python source is shallowly embedded below.  Python strings are Lean
`String`s, and the handful of Python string primitives the program uses
(`strip`, `lower`, `split(" ")`, `replace`, `startswith`, the `in`
substring test, `isdigit`, and string truthiness) are modelled by
structurally recursive functions over `String.data`, restricted to ASCII
where Python's originals are Unicode-aware (the corpus and queries in
scope are ASCII).  Python dicts keyed by strings are insertion-ordered
association lists with last-writer-wins update, as in CPython.

External collaborators are opaque parameters, following the interface
boundary: the sentence-transformer model enters only through a
similarity function `sim : String → List ℚ` giving the cosine-similarity
row that `util.pytorch_cos_sim` produces for a query, and the
bible-api.com HTTP service is a function from URLs to `ApiOutcome`
(a parsed JSON object, or a raised transport/parse exception).
A raised Python exception that escapes a modelled code region is
represented by `Option.none` / a `crash` outcome.
-/

namespace GHS

/-- ASCII whitespace, as stripped by Python's `str.strip()`. -/
def isPySpace (c : Char) : Bool :=
  c == ' ' || c == '\t' || c == '\n' || c == '\r' || c == '\x0b' || c == '\x0c'

/-- Python `s.strip()` (ASCII whitespace). -/
def pyStrip (s : String) : String :=
  String.mk (((s.data.dropWhile isPySpace).reverse.dropWhile isPySpace).reverse)

/-- Python string truthiness: a string is truthy iff non-empty. -/
def pyBool (s : String) : Bool :=
  !s.data.isEmpty

/-- Lower-case one ASCII character, as `str.lower()` does. -/
def lowerChar (c : Char) : Char :=
  if 65 ≤ c.toNat ∧ c.toNat ≤ 90 then Char.ofNat (c.toNat + 32) else c

/-- Python `s.lower()` (ASCII). -/
def pyLower (s : String) : String :=
  String.mk (s.data.map lowerChar)

/-- Does `pat` occur as a prefix of `hay`? -/
def matchesAt : List Char → List Char → Bool
  | [], _ => true
  | _ :: _, [] => false
  | a :: as, b :: bs => a == b && matchesAt as bs

/-- Does `pat` occur as a substring (at any position) of `hay`? -/
def hasSubAux (pat : List Char) : List Char → Bool
  | [] => matchesAt pat []
  | c :: t => matchesAt pat (c :: t) || hasSubAux pat t

/-- Python `sub in s` substring test. -/
def strIn (sub s : String) : Bool :=
  hasSubAux sub.data s.data

/-- Python `s.startswith(p)`. -/
def pyStarts (s p : String) : Bool :=
  matchesAt p.data s.data

/-- Python `s.split(" ")`: split at every single space, keeping empties. -/
def splitSpAux : List Char → List Char → List String
  | [], acc => [String.mk acc.reverse]
  | c :: cs, acc =>
    if c == ' ' then String.mk acc.reverse :: splitSpAux cs []
    else splitSpAux cs (c :: acc)

/-- Python `s.split(" ")`. -/
def pySplitSp (s : String) : List String :=
  splitSpAux s.data []

/-- Fuelled worker for Python `s.replace(pat, rep)`: scan left to right,
replacing non-overlapping occurrences.  The fuel is the length of the
remaining text; each step consumes at least one character, so fuel equal
to the initial length makes the fuel bound unreachable. -/
def replFuel (pat rep : List Char) : Nat → List Char → List Char
  | _, [] => []
  | 0, l => l
  | n + 1, c :: t =>
    if pat ≠ [] ∧ matchesAt pat (c :: t) then
      rep ++ replFuel pat rep n (t.drop (pat.length - 1))
    else c :: replFuel pat rep n t

/-- Python `s.replace(pat, rep)` for a non-empty pattern. -/
def pyReplace (s pat rep : String) : String :=
  String.mk (replFuel pat.data rep.data s.data.length s.data)

/-- ASCII digit test (Python `str.isdigit` restricted to ASCII). -/
def isDig (c : Char) : Bool :=
  '0' ≤ c && c ≤ '9'

/-- Python `s.isdigit()`: non-empty and all digits. -/
def pyIsDigit (s : String) : Bool :=
  !s.data.isEmpty && s.data.all isDig

/-- Python `"\n".join(lines)`. -/
def joinNL : List String → String
  | [] => ""
  | [x] => x
  | x :: y :: ys => x ++ "\n" ++ joinNL (y :: ys)

/-! ### Python dicts as insertion-ordered association lists -/

/-- A Python `dict` with string keys and values, in insertion order. -/
abbrev Dict := List (String × String)

/-- Key lookup (`d[k]` / `k in d`). -/
def dlookup (k : String) : List (String × String) → Option String
  | [] => none
  | (a, v) :: es => if k = a then some v else dlookup k es

/-- Python `d[k] = v`: update in place when the key exists, else append. -/
def dinsert (d : List (String × String)) (k v : String) : List (String × String) :=
  if (dlookup k d).isSome then
    d.map (fun p => if p.1 = k then (k, v) else p)
  else d ++ [(k, v)]

/-! ### Corpus loader (`load_hymns`)

The Python loader scans the file line by line, keeping an in-progress
record (`hymn_number`, `title`, `lyrics`) plus the two dicts built so
far (`hymns : key ↦ lyrics text` and `hymn_dict : number ↦ key`).
-/

/-- The loader's mutable state: the in-progress record and the two
dicts accumulated so far. -/
structure LState where
  num : Option String
  ti : Option String
  lyr : List String
  hy : List (String × String)
  hd : List (String × String)

/-- Truthiness of the Python `hymn_number` / `title` variables, which
are either `None` or a string. -/
def optTruthy : Option String → Bool
  | none => false
  | some s => pyBool s

/-- The display key `f"GHS {number} - {title}"` under which a hymn is
stored. -/
def mkKey (n t : String) : String :=
  "GHS " ++ n ++ " - " ++ t

/-- Finalize the in-progress record: executed both at a `# GHS` header
line and at end of input (`if hymn_number and title:` in the source).
A record missing either field is dropped. -/
def emit (st : LState) : List (String × String) × List (String × String) :=
  if optTruthy st.num && optTruthy st.ti then
    (dinsert st.hy (mkKey (st.num.getD "") (st.ti.getD "")) (pyStrip (joinNL st.lyr)),
     dinsert st.hd (st.num.getD "") (mkKey (st.num.getD "") (st.ti.getD "")))
  else (st.hy, st.hd)

/-- Parse the number token of a header line: `parts = line.split(" ")`,
then `parts[2].strip()` when there are more than two tokens, else
`None`. -/
def headerNum (line : String) : Option String :=
  if 2 < (pySplitSp line).length then some (pyStrip ((pySplitSp line).getD 2 "")) else none

/-- One iteration of the loader's `for line in content` loop. -/
def stepLine (st : LState) (raw : String) : LState :=
  if pyStarts (pyStrip raw) "# GHS" then
    { num := headerNum (pyStrip raw), ti := none, lyr := [],
      hy := (emit st).1, hd := (emit st).2 }
  else if pyStarts (pyStrip raw) "Title:" then
    { st with ti := some (pyStrip (pyReplace (pyStrip raw) "Title:" "")) }
  else if pyBool (pyStrip raw) then
    { st with lyr := st.lyr ++ [pyStrip raw] }
  else st

/-- The loader's initial state. -/
def initState : LState :=
  ⟨none, none, [], [], []⟩

/-- `load_hymns` on a successfully read list of lines: run the loop,
then finalize the last in-progress record. -/
def load_hymns (content : List String) : List (String × String) × List (String × String) :=
  emit (content.foldl stepLine initState)

/-- How reading the corpus file can go: a list of lines, a missing file
(`FileNotFoundError`), or any other read failure (permissions,
undecodable bytes, ...). -/
inductive ReadResult where
  | ok (lines : List String)
  | fileNotFound
  | otherFailure

/-- `load_hymns` including its `try/except FileNotFoundError` boundary:
a missing file yields the empty dicts (after an `st.error` diagnostic);
any other read failure is uncaught, modelled as `none`. -/
def load_hymns_from : ReadResult → Option (List (String × String) × List (String × String))
  | .ok lines => some (load_hymns lines)
  | .fileNotFound => some ([], [])
  | .otherFailure => none

/-! ### Search strategies (`find_best_hymns`) -/

/-- The case-insensitive substring scan: all `(title, lyrics, 1.0)`
triples, in corpus order, whose lyrics contain the query
(`query.lower() in lyrics.lower()`). -/
def substringMatches (query : String) (ts ls : List String) : List (String × String × ℚ) :=
  (ts.zip ls).filterMap
    (fun p => if strIn (pyLower query) (pyLower p.2) then some (p.1, p.2, (1 : ℚ)) else none)

/-- Ranking priority used to model `torch.topk` on the similarity row:
higher score first, ties broken by lower index (corpus insertion
order). -/
def rkey (a b : Nat × ℚ) : Prop :=
  b.2 < a.2 ∨ (a.2 = b.2 ∧ a.1 ≤ b.1)

instance rkeyDecidable : DecidableRel rkey := fun a b =>
  inferInstanceAs (Decidable (b.2 < a.2 ∨ (a.2 = b.2 ∧ a.1 ≤ b.1)))

instance rkeyTotal : IsTotal (Nat × ℚ) rkey where
  total a b := by
    rcases lt_trichotomy a.2 b.2 with h | h | h
    · exact Or.inr (Or.inl h)
    · rcases Nat.le_total a.1 b.1 with h' | h'
      · exact Or.inl (Or.inr ⟨h, h'⟩)
      · exact Or.inr (Or.inr ⟨h.symm, h'⟩)
    · exact Or.inl (Or.inl h)

instance rkeyTrans : IsTrans (Nat × ℚ) rkey where
  trans a b c hab hbc := by
    rcases hab with h1 | ⟨e1, l1⟩
    · rcases hbc with h2 | ⟨e2, _⟩
      · exact Or.inl (h2.trans h1)
      · exact Or.inl (e2 ▸ h1)
    · rcases hbc with h2 | ⟨e2, l2⟩
      · exact Or.inl (e1 ▸ h2)
      · exact Or.inr ⟨e1.trans e2, l1.trans l2⟩

/-- Model of `torch.topk(similarities, k=3).indices` paired with their
scores: sort the indexed scores by descending score (first-seen wins on
ties) and keep the first three. -/
def topk3 (sims : List ℚ) : List (Nat × ℚ) :=
  (List.insertionSort rkey sims.enum).take 3

/-- Build the result triples `(hymn_titles[i], hymn_lyrics[i],
similarities[i])` for the chosen indices; an out-of-range index is a
Python `IndexError`, modelled as `none`. -/
def idxResults (ts ls : List String) : List (Nat × ℚ) → Option (List (String × String × ℚ))
  | [] => some []
  | p :: rest =>
    match ts.get? p.1, ls.get? p.1, idxResults ts ls rest with
    | some t, some l, some r => some ((t, l, p.2) :: r)
    | _, _, _ => none

/-- `find_best_hymns`: return the substring matches (capped at three)
when any exist, otherwise fall back to the semantic top-3.
`torch.topk(·, k=3)` raises when there are fewer than three similarity
entries; that and any index error surface as `none`. -/
def find_best_hymns (sim : String → List ℚ) (query : String) (ts ls : List String) :
    Option (List (String × String × ℚ)) :=
  if (substringMatches query ts ls).isEmpty then
    if 3 ≤ (sim query).length then idxResults ts ls (topk3 (sim query)) else none
  else some ((substringMatches query ts ls).take 3)

/-! ### Scripture lookup (`fetch_bible_verse`) -/

/-- What `requests.get(url).json()` can produce: a JSON object (an
association list of string fields), or a raised exception anywhere in
the request/parse. -/
inductive ApiOutcome where
  | json (data : List (String × String))
  | raise

/-- The URL built for a reference: chapter-only references (no colon)
request the `+summary` variant. -/
def urlOf (reference : String) : String :=
  if strIn ":" reference then "https://bible-api.com/" ++ reference
  else "https://bible-api.com/" ++ reference ++ "+summary"

/-- `fetch_bible_verse`: return the `text` field if present, else the
`summary` field if present, else `None`; any exception is caught and
collapses to `None`. -/
def fetch_bible_verse (api : String → ApiOutcome) (reference : String) : Option String :=
  match api (urlOf reference) with
  | .raise => none
  | .json data =>
    match dlookup "text" data with
    | some t => some t
    | none =>
      match dlookup "summary" data with
      | some s => some s
      | none => none

/-! ### Top-level search handler (the Find Hymns button) -/

/-- Observable outcome of one press of the Find Hymns button:
the empty-query warning, the exact hymn-number display, a recommended
list, or an uncaught exception. -/
inductive Outcome where
  | warning
  | hymnText (key lyrics : String)
  | recs (rs : List (String × String × ℚ))
  | crash
deriving DecidableEq

/-- Lift `find_best_hymns`'s result to the handler outcome. -/
def recsOut : Option (List (String × String × ℚ)) → Outcome
  | some rs => .recs rs
  | none => .crash

/-- The search handler: empty-query guard, then the hymn-number branch
(`query.isdigit() and query in hymn_dict`), then the Bible-reference
branch (some digit and a colon), then the fallback
`find_best_hymns(query, ...)` whenever no earlier branch displayed
anything (`if not hymns_found`). -/
def search (sim : String → List ℚ) (api : String → ApiOutcome)
    (ts ls : List String) (hymns hymn_dict : List (String × String))
    (query : String) : Outcome :=
  if pyBool query = false then .warning
  else if pyIsDigit query && (dlookup query hymn_dict).isSome then
    match dlookup query hymn_dict with
    | some key =>
      match dlookup key hymns with
      | some lyrics => .hymnText key lyrics
      | none => .crash
    | none => .crash
  else if query.data.any isDig && strIn ":" query then
    match fetch_bible_verse api query with
    | some bt =>
      if pyBool bt then recsOut (find_best_hymns sim bt ts ls)
      else recsOut (find_best_hymns sim query ts ls)
    | none => recsOut (find_best_hymns sim query ts ls)
  else recsOut (find_best_hymns sim query ts ls)

/-! ### Well-formed corpus sources

For the parse round-trip claim, a well-formed source is a concatenation
of groups, each rendered as a `# GHS <number>` header line, a
`Title: <title>` line, and body lines.  `WF` records, decidably, that a
group's fields interact with the tokenizer the way a well-formed group
must: the header and title lines are already stripped, carry the right
markers, and split/extract back to the group's fields; body lines are
neither headers nor titles; and the joined clean body is stripped.
-/

/-- Strip each line and drop the blank ones (what the loader keeps of a
run of body lines). -/
def cleanLines (bs : List String) : List String :=
  (bs.map pyStrip).filter (fun l => pyBool l)

/-- One header/title/body group of a corpus source. -/
structure Group where
  number : String
  title : String
  body : List String

/-- The rendered header line of a group. -/
def hdrLine (g : Group) : String :=
  "# GHS " ++ g.number

/-- The rendered title line of a group. -/
def titleLine (g : Group) : String :=
  "Title: " ++ g.title

/-- The rendered lines of one group. -/
def renderGroup (g : Group) : List String :=
  hdrLine g :: titleLine g :: g.body

/-- The rendered lines of a whole source. -/
def linesOf : List Group → List String
  | [] => []
  | g :: gs => renderGroup g ++ linesOf gs

/-- The body lines the loader keeps for a group. -/
def cleanBody (g : Group) : List String :=
  cleanLines g.body

/-- The dict key the loader derives for a group. -/
def keyOf (g : Group) : String :=
  mkKey g.number g.title

/-- The stored lyrics text the loader derives for a group. -/
def textOf (g : Group) : String :=
  joinNL (cleanBody g)

/-- Well-formedness of one rendered group (decidable). -/
def WF (g : Group) : Prop :=
  pyStrip (hdrLine g) = hdrLine g
  ∧ pyStarts (hdrLine g) "# GHS" = true
  ∧ pySplitSp (hdrLine g) = ["#", "GHS", g.number]
  ∧ pyStrip g.number = g.number
  ∧ pyBool g.number = true
  ∧ pyStrip (titleLine g) = titleLine g
  ∧ pyStarts (titleLine g) "# GHS" = false
  ∧ pyStarts (titleLine g) "Title:" = true
  ∧ pyStrip (pyReplace (titleLine g) "Title:" "") = g.title
  ∧ pyBool g.title = true
  ∧ (∀ l ∈ g.body, pyStarts (pyStrip l) "# GHS" = false ∧ pyStarts (pyStrip l) "Title:" = false)
  ∧ pyStrip (joinNL (cleanBody g)) = joinNL (cleanBody g)

instance decidableWF (g : Group) : Decidable (WF g) := by
  unfold WF
  infer_instance

/-- The record the loader commits for one finalized group. -/
def emitG (p : Dict × Dict) (g : Group) : Dict × Dict :=
  (dinsert p.1 (keyOf g) (textOf g), dinsert p.2 g.number (keyOf g))

end GHS

namespace GHS

/-! ### Lemmas about the substring scan and the top-k selection -/

/-- Every triple produced by the substring scan carries confidence 1
and lyrics containing the query case-insensitively. -/
theorem substringMatches_spec {q : String} :
    ∀ {zs : List (String × String)} {r : String × String × ℚ},
      r ∈ zs.filterMap
        (fun p => if strIn (pyLower q) (pyLower p.2) then some (p.1, p.2, (1 : ℚ)) else none) →
      r.2.2 = 1 ∧ strIn (pyLower q) (pyLower r.2.1) = true := by
  intro zs
  induction zs with
  | nil => intro r h; simp at h
  | cons p zs ih =>
    intro r h
    cases hin : strIn (pyLower q) (pyLower p.2) with
    | false =>
      rw [List.filterMap_cons, hin] at h
      exact ih h
    | true =>
      rw [List.filterMap_cons, hin] at h
      rcases List.mem_cons.mp h with h | h
      · subst h
        exact ⟨rfl, hin⟩
      · exact ih h

/-- Membership of an indexed entry in `enumFrom`, phrased with `getD`. -/
theorem getD_mem_enumFrom {α : Type} (d : α) :
    ∀ (l : List α) (n j : Nat), j < l.length → (n + j, l.getD j d) ∈ List.enumFrom n l := by
  intro l
  induction l with
  | nil => intro n j h; simp at h
  | cons a t ih =>
    intro n j h
    cases j with
    | zero => simp [List.enumFrom]
    | succ k =>
      have hk : k < t.length := by simpa using h
      have hmem := ih (n + 1) k hk
      have e : n + (k + 1) = (n + 1) + k := by omega
      have e2 : (a :: t).getD (k + 1) d = t.getD k d := rfl
      rw [e, e2]
      exact List.mem_cons_of_mem _ hmem

/-- Entries chosen by `topk3` come from the enumerated similarity row. -/
theorem topk3_mem_enum (sims : List ℚ) : ∀ p ∈ topk3 sims, p ∈ sims.enum := by
  intro p hp
  have h1 : p ∈ List.insertionSort rkey sims.enum := List.mem_of_mem_take hp
  exact (List.mem_insertionSort rkey).mp h1

/-- Chosen indices are in range. -/
theorem topk3_fst_lt (sims : List ℚ) : ∀ p ∈ topk3 sims, p.1 < sims.length := by
  intro p hp
  have h := List.fst_lt_add_of_mem_enumFrom (topk3_mem_enum sims p hp)
  simpa using h

/-- The selection is internally sorted by the ranking priority. -/
theorem topk3_pairwise (sims : List ℚ) : (topk3 sims).Pairwise rkey :=
  (List.sorted_insertionSort rkey sims.enum).sublist (List.take_sublist 3 _)

/-- Every chosen entry ranks at least as high as every entry left in
the dropped tail of the sorted list. -/
theorem topk3_dominates_drop (sims : List ℚ) :
    ∀ p ∈ topk3 sims, ∀ e ∈ (List.insertionSort rkey sims.enum).drop 3, rkey p e := by
  have hPW : (List.insertionSort rkey sims.enum).Pairwise rkey :=
    List.sorted_insertionSort rkey sims.enum
  rw [← List.take_append_drop 3 (List.insertionSort rkey sims.enum)] at hPW
  exact (List.pairwise_append.mp hPW).2.2

/-- Building the result triples succeeds when every chosen index is in
range, and then preserves order, length and scores. -/
theorem idxResults_spec {ts ls : List String} :
    ∀ {L : List (Nat × ℚ)},
      (∀ p ∈ L, p.1 < ts.length) → (∀ p ∈ L, p.1 < ls.length) →
      ∃ rs, idxResults ts ls L = some rs
        ∧ rs.map (fun r => r.2.2) = L.map Prod.snd
        ∧ rs.length = L.length := by
  intro L
  induction L with
  | nil => exact fun _ _ => ⟨[], rfl, rfl, rfl⟩
  | cons p L ih =>
    intro h1 h2
    obtain ⟨rs, hrs, hmap, hlen⟩ :=
      ih (fun x hx => h1 x (List.mem_cons_of_mem _ hx))
        (fun x hx => h2 x (List.mem_cons_of_mem _ hx))
    have hp1 : p.1 < ts.length := h1 p (List.mem_cons_self _ _)
    have hp2 : p.1 < ls.length := h2 p (List.mem_cons_self _ _)
    refine ⟨(ts.get ⟨p.1, hp1⟩, ls.get ⟨p.1, hp2⟩, p.2) :: rs, ?_, ?_, ?_⟩
    · simp [idxResults, hrs, List.getElem?_eq_getElem, hp1, hp2]
    · simp [hmap]
    · simp [hlen]

/-! ### Claim C3 — substring precedence over semantics -/

/-- Claim C3: whenever the query occurs case-insensitively in at least
one record's lyrics, `find_best_hymns` returns exactly the substring
matches in corpus order (capped at three, each with confidence 1), and
the semantic strategy does not run: the result is identical under any
two similarity functions. -/
theorem C3_substring_precedence (sim sim' : String → List ℚ) (ts ls : List String) (q : String)
    (h : substringMatches q ts ls ≠ []) :
    ∃ rs, find_best_hymns sim q ts ls = some rs
      ∧ find_best_hymns sim' q ts ls = some rs
      ∧ rs = (substringMatches q ts ls).take 3
      ∧ rs.length ≤ 3
      ∧ ∀ r ∈ rs, r.2.2 = (1 : ℚ) ∧ strIn (pyLower q) (pyLower r.2.1) = true := by
  have key : ∀ simx : String → List ℚ,
      find_best_hymns simx q ts ls = some ((substringMatches q ts ls).take 3) := by
    intro simx
    cases hm : substringMatches q ts ls with
    | nil => exact absurd hm h
    | cons a t => simp [find_best_hymns, hm]
  refine ⟨(substringMatches q ts ls).take 3, key sim, key sim', rfl,
    List.length_take_le 3 _, ?_⟩
  intro r hr
  have hr' : r ∈ substringMatches q ts ls := List.mem_of_mem_take hr
  exact substringMatches_spec hr'

/-- Witness for `C3_substring_precedence` at a concrete corpus. -/
theorem C3_substring_precedence_witness :
    ∃ rs, find_best_hymns (fun _ => []) "lo Wo" ["A"] ["Hello World"] = some rs
      ∧ find_best_hymns (fun _ => [(9 : ℚ)]) "lo Wo" ["A"] ["Hello World"] = some rs
      ∧ rs = (substringMatches "lo Wo" ["A"] ["Hello World"]).take 3
      ∧ rs.length ≤ 3
      ∧ ∀ r ∈ rs, r.2.2 = (1 : ℚ) ∧ strIn (pyLower "lo Wo") (pyLower r.2.1) = true :=
  C3_substring_precedence (fun _ => []) (fun _ => [(9 : ℚ)]) ["A"] ["Hello World"] "lo Wo"
    (by decide)

/-! ### Claim C4 — top-k bound and ordering of the semantic fallback -/

/-- Claim C4: with no substring match and a large-enough corpus, the
semantic fallback returns at most three results, whose confidence
scores are exactly the top-3 similarity scores in non-increasing
order; every unselected index scores strictly less than each selected
entry, or ties with it and then has the larger index (first-seen
wins). -/
theorem C4_topk_bound (sim : String → List ℚ) (ts ls : List String) (q : String)
    (hnosub : substringMatches q ts ls = [])
    (hsim : (sim q).length = ts.length)
    (hls : ls.length = ts.length)
    (h3 : 3 ≤ ts.length) :
    ∃ rs, find_best_hymns sim q ts ls = some rs
      ∧ rs.length ≤ 3
      ∧ rs.map (fun r => r.2.2) = (topk3 (sim q)).map Prod.snd
      ∧ rs.Chain' (fun a b => b.2.2 ≤ a.2.2)
      ∧ ∀ p ∈ topk3 (sim q), ∀ j, j < (sim q).length →
          j ∉ (topk3 (sim q)).map Prod.fst →
          ((sim q).getD j 0 < p.2 ∨ ((sim q).getD j 0 = p.2 ∧ p.1 < j)) := by
  have h3' : 3 ≤ (sim q).length := by rw [hsim]; exact h3
  obtain ⟨rs, hrs, hmap, hlen⟩ := idxResults_spec
    (fun p hp => by rw [← hsim]; exact topk3_fst_lt (sim q) p hp)
    (fun p hp => by rw [hls, ← hsim]; exact topk3_fst_lt (sim q) p hp)
  have hfind : find_best_hymns sim q ts ls = idxResults ts ls (topk3 (sim q)) := by
    simp [find_best_hymns, hnosub, h3']
  refine ⟨rs, hfind.trans hrs, ?_, hmap, ?_, ?_⟩
  · rw [hlen]
    exact List.length_take_le 3 _
  · have hPW2 : (topk3 (sim q)).Pairwise (fun a b : Nat × ℚ => b.2 ≤ a.2) :=
      (topk3_pairwise (sim q)).imp (fun hab => by
        rcases hab with h | ⟨h, _⟩
        · exact le_of_lt h
        · exact le_of_eq h.symm)
    have hC : ((topk3 (sim q)).map Prod.snd).Chain' (fun x y : ℚ => y ≤ x) :=
      (List.chain'_map Prod.snd).mpr hPW2.chain'
    rw [← hmap] at hC
    exact (List.chain'_map (fun r : String × String × ℚ => r.2.2)).mp hC
  · intro p hp j hj hnot
    have hjmem : (j, (sim q).getD j 0) ∈ (sim q).enum := by
      have := getD_mem_enumFrom 0 (sim q) 0 j hj
      simpa using this
    have hsortmem : (j, (sim q).getD j 0) ∈ List.insertionSort rkey (sim q).enum :=
      (List.mem_insertionSort rkey).mpr hjmem
    have hnotin : (j, (sim q).getD j 0) ∉ topk3 (sim q) := fun hmem =>
      hnot (List.mem_map_of_mem Prod.fst hmem)
    have hdrop : (j, (sim q).getD j 0) ∈ (List.insertionSort rkey (sim q).enum).drop 3 := by
      rw [← List.take_append_drop 3 (List.insertionSort rkey (sim q).enum)] at hsortmem
      rcases List.mem_append.mp hsortmem with h | h
      · exact absurd h hnotin
      · exact h
    have hrel : rkey p (j, (sim q).getD j 0) :=
      topk3_dominates_drop (sim q) p hp _ hdrop
    rcases hrel with h | ⟨he, hle⟩
    · exact Or.inl h
    · refine Or.inr ⟨he.symm, lt_of_le_of_ne hle fun e => ?_⟩
      exact hnot (e ▸ List.mem_map_of_mem Prod.fst hp)

/-- Witness for `C4_topk_bound` at a concrete similarity row with a
tie: scores `[3, 9, 9, 1]` select indices 1, 2, 0 in that order. -/
theorem C4_topk_bound_witness :
    ∃ rs, find_best_hymns (fun _ => [(3 : ℚ), 9, 9, 1]) "zz" ["A", "B", "C", "D"]
        ["a", "b", "c", "d"] = some rs
      ∧ rs.length ≤ 3
      ∧ rs.map (fun r => r.2.2)
        = (topk3 ((fun _ : String => [(3 : ℚ), 9, 9, 1]) "zz")).map Prod.snd
      ∧ rs.Chain' (fun a b => b.2.2 ≤ a.2.2)
      ∧ ∀ p ∈ topk3 ((fun _ : String => [(3 : ℚ), 9, 9, 1]) "zz"), ∀ j,
          j < ((fun _ : String => [(3 : ℚ), 9, 9, 1]) "zz").length →
          j ∉ (topk3 ((fun _ : String => [(3 : ℚ), 9, 9, 1]) "zz")).map Prod.fst →
          (((fun _ : String => [(3 : ℚ), 9, 9, 1]) "zz").getD j 0 < p.2
            ∨ (((fun _ : String => [(3 : ℚ), 9, 9, 1]) "zz").getD j 0 = p.2 ∧ p.1 < j)) :=
  C4_topk_bound (fun _ => [(3 : ℚ), 9, 9, 1]) ["A", "B", "C", "D"] ["a", "b", "c", "d"] "zz"
    (by decide) (by decide) (by decide) (by decide)

/-! ### Claim C10 — implicit corpus-size precondition of the fallback -/

/-- Claim C10: `torch.topk` is called with `k` fixed at 3, so for a
query with no substring match the semantic branch succeeds exactly
when the corpus has at least three records; on smaller corpora it
raises (`none`) instead of degrading to fewer results. -/
theorem C10_topk_precondition (sim : String → List ℚ) (ts ls : List String) (q : String)
    (hnosub : substringMatches q ts ls = [])
    (hsim : (sim q).length = ts.length)
    (hls : ls.length = ts.length) :
    ((find_best_hymns sim q ts ls).isSome ↔ 3 ≤ ts.length)
    ∧ (ts.length < 3 → find_best_hymns sim q ts ls = none) := by
  have hnone : ts.length < 3 → find_best_hymns sim q ts ls = none := by
    intro hlt
    have h3 : ¬ 3 ≤ (sim q).length := by
      rw [hsim]
      omega
    simp [find_best_hymns, hnosub, h3]
  refine ⟨⟨?_, ?_⟩, hnone⟩
  · intro h
    by_contra hlt
    rw [hnone (by omega)] at h
    simp at h
  · intro h3
    have h3' : 3 ≤ (sim q).length := by rw [hsim]; exact h3
    obtain ⟨rs, hrs, _, _⟩ := idxResults_spec
      (fun p hp => by rw [← hsim]; exact topk3_fst_lt (sim q) p hp)
      (fun p hp => by rw [hls, ← hsim]; exact topk3_fst_lt (sim q) p hp)
    have hfind : find_best_hymns sim q ts ls = idxResults ts ls (topk3 (sim q)) := by
      simp [find_best_hymns, hnosub, h3']
    rw [hfind, hrs]
    rfl

/-- Witness for `C10_topk_precondition`: on a two-record corpus the
semantic branch is not well-defined (`topk` raises). -/
theorem C10_topk_precondition_witness :
    (((find_best_hymns (fun _ => [(5 : ℚ), 4]) "zz" ["A", "B"] ["a", "b"]).isSome ↔ 3 ≤ 2)
      ∧ (2 < 3 → find_best_hymns (fun _ => [(5 : ℚ), 4]) "zz" ["A", "B"] ["a", "b"] = none)) :=
  by
  have h := C10_topk_precondition (fun _ => [(5 : ℚ), 4]) ["A", "B"] ["a", "b"] "zz"
    (by decide) (by decide) (by decide)
  simpa using h

end GHS

namespace GHS

/-! ### Lemmas about the loader's line loop -/

/-- A header line finalizes the pending record and resets the
in-progress fields. -/
theorem stepLine_header {raw : String} (st : LState)
    (h : pyStarts (pyStrip raw) "# GHS" = true) :
    stepLine st raw
      = { num := headerNum (pyStrip raw), ti := none, lyr := [],
          hy := (emit st).1, hd := (emit st).2 } := by
  simp [stepLine, h]

/-- A title line only sets the pending title. -/
theorem stepLine_title {raw : String} (st : LState)
    (h1 : pyStarts (pyStrip raw) "# GHS" = false)
    (h2 : pyStarts (pyStrip raw) "Title:" = true) :
    stepLine st raw
      = { st with ti := some (pyStrip (pyReplace (pyStrip raw) "Title:" "")) } := by
  simp [stepLine, h1, h2]

/-- Any non-header line leaves the pending number and both dicts
untouched. -/
theorem stepLine_preserves {raw : String} (st : LState)
    (h : pyStarts (pyStrip raw) "# GHS" = false) :
    (stepLine st raw).num = st.num ∧ (stepLine st raw).hy = st.hy
      ∧ (stepLine st raw).hd = st.hd := by
  unfold stepLine
  rw [if_neg (by simp [h])]
  split_ifs <;> simp

/-- Folding over header-free lines preserves the pending number and
both dicts. -/
theorem foldl_nonheader :
    ∀ (bs : List String) (st : LState),
      (∀ l ∈ bs, pyStarts (pyStrip l) "# GHS" = false) →
      (bs.foldl stepLine st).num = st.num ∧ (bs.foldl stepLine st).hy = st.hy
        ∧ (bs.foldl stepLine st).hd = st.hd := by
  intro bs
  induction bs with
  | nil => exact fun st _ => ⟨rfl, rfl, rfl⟩
  | cons l bs ih =>
    intro st h
    have hl := h l (List.mem_cons_self _ _)
    obtain ⟨p1, p2, p3⟩ := stepLine_preserves st hl
    obtain ⟨q1, q2, q3⟩ := ih (stepLine st l) (fun x hx => h x (List.mem_cons_of_mem _ hx))
    exact ⟨q1.trans p1, q2.trans p2, q3.trans p3⟩

/-- Folding over lines that are neither headers nor titles only
appends the stripped non-blank lines to the pending lyrics. -/
theorem foldl_body_only :
    ∀ (bs : List String) (st : LState),
      (∀ l ∈ bs, pyStarts (pyStrip l) "# GHS" = false
        ∧ pyStarts (pyStrip l) "Title:" = false) →
      bs.foldl stepLine st = { st with lyr := st.lyr ++ cleanLines bs } := by
  intro bs
  induction bs with
  | nil => intro st _; simp [cleanLines]
  | cons l bs ih =>
    intro st h
    obtain ⟨h1, h2⟩ := h l (List.mem_cons_self _ _)
    have hrest := fun x hx => h x (List.mem_cons_of_mem _ hx)
    show bs.foldl stepLine (stepLine st l) = _
    cases hb : pyBool (pyStrip l) with
    | true =>
      have hstep : stepLine st l = { st with lyr := st.lyr ++ [pyStrip l] } := by
        simp [stepLine, h1, h2, hb]
      rw [hstep, ih _ hrest]
      simp [cleanLines, hb]
    | false =>
      have hstep : stepLine st l = st := by
        simp [stepLine, h1, h2, hb]
      rw [hstep, ih _ hrest]
      simp [cleanLines, hb]

/-- Finalizing with no pending number commits nothing. -/
theorem emit_of_num_none (st : LState) (h : st.num = none) : emit st = (st.hy, st.hd) := by
  simp [emit, h, optTruthy]

/-- Finalizing with no pending title commits nothing. -/
theorem emit_of_ti_none (st : LState) (h : st.ti = none) : emit st = (st.hy, st.hd) := by
  simp [emit, h, optTruthy]

/-- Running the loop over one well-formed rendered group finalizes the
previous state and leaves the group parsed as the pending record. -/
theorem foldl_renderGroup (g : Group) (st : LState) (hwf : WF g) :
    (renderGroup g).foldl stepLine st
      = { num := some g.number, ti := some g.title, lyr := cleanBody g,
          hy := (emit st).1, hd := (emit st).2 } := by
  obtain ⟨w1, w2, w3, w4, _, w6, w7, w8, w9, _, w11, _⟩ := hwf
  show g.body.foldl stepLine (stepLine (stepLine st (hdrLine g)) (titleLine g)) = _
  have hstep1 : stepLine st (hdrLine g)
      = { num := some g.number, ti := none, lyr := [],
          hy := (emit st).1, hd := (emit st).2 } := by
    rw [stepLine_header st (by rw [w1]; exact w2), w1]
    simp [headerNum, w3, w4]
  rw [hstep1]
  have hstep2 : stepLine
      ({ num := some g.number, ti := none, lyr := [],
         hy := (emit st).1, hd := (emit st).2 } : LState) (titleLine g)
      = { num := some g.number, ti := some g.title, lyr := [],
          hy := (emit st).1, hd := (emit st).2 } := by
    rw [stepLine_title _ (by rw [w6]; exact w7) (by rw [w6]; exact w8), w6, w9]
  rw [hstep2, foldl_body_only _ _ w11]
  simp [cleanBody]

/-- Running the loop over a list of well-formed groups and finalizing
is the same as finalizing the initial state and then committing each
group in turn. -/
theorem emit_foldl_groups :
    ∀ (gs : List Group) (st : LState), (∀ g ∈ gs, WF g) →
      emit ((linesOf gs).foldl stepLine st) = gs.foldl emitG (emit st) := by
  intro gs
  induction gs with
  | nil => exact fun st _ => rfl
  | cons g gs ih =>
    intro st h
    have hg := h g (List.mem_cons_self _ _)
    have hrest := fun x hx => h x (List.mem_cons_of_mem _ hx)
    have hlines : linesOf (g :: gs) = renderGroup g ++ linesOf gs := rfl
    rw [hlines, List.foldl_append, foldl_renderGroup g st hg, ih _ hrest]
    show _ = gs.foldl emitG (emitG (emit st) g)
    congr 1
    obtain ⟨_, _, _, _, w5, _, _, _, _, w10, _, w12⟩ := hg
    simp [emit, emitG, optTruthy, w5, w10, keyOf, textOf, mkKey, w12]

/-- Looking a key up past a prefix in which it does not occur. -/
theorem dlookup_append_none :
    ∀ (d1 : Dict) (k : String), dlookup k d1 = none →
      ∀ d2, dlookup k (d1 ++ d2) = dlookup k d2 := by
  intro d1
  induction d1 with
  | nil => intro k _ d2; rfl
  | cons p t ih =>
    intro k h d2
    obtain ⟨a, v⟩ := p
    by_cases hk : k = a
    · simp [dlookup, hk] at h
    · simp only [List.cons_append, dlookup, if_neg hk] at h ⊢
      exact ih k h d2

/-- Inserting a fresh key appends. -/
theorem dinsert_fresh {d : Dict} {k : String} (h : dlookup k d = none) (v : String) :
    dinsert d k v = d ++ [(k, v)] := by
  simp [dinsert, h]

/-- A singleton dict misses every other key. -/
theorem dlookup_single_ne {k a v : String} (h : k ≠ a) : dlookup k [(a, v)] = none := by
  simp [dlookup, h]

/-- Committing a list of groups with fresh, pairwise-distinct keys and
numbers appends one entry per group, in order, to each dict. -/
theorem foldl_emitG_spec :
    ∀ (gs : List Group) (hy hd : Dict),
      (∀ g ∈ gs, dlookup (keyOf g) hy = none) →
      (∀ g ∈ gs, dlookup g.number hd = none) →
      (gs.map keyOf).Nodup → (gs.map Group.number).Nodup →
      gs.foldl emitG (hy, hd)
        = (hy ++ gs.map (fun g => (keyOf g, textOf g)),
           hd ++ gs.map (fun g => (g.number, keyOf g))) := by
  intro gs
  induction gs with
  | nil => intro hy hd _ _ _ _; simp
  | cons g gs ih =>
    intro hy hd hk hn ndk ndn
    have hgk := hk g (List.mem_cons_self _ _)
    have hgn := hn g (List.mem_cons_self _ _)
    have e1 : emitG (hy, hd) g = (hy ++ [(keyOf g, textOf g)], hd ++ [(g.number, keyOf g)]) := by
      simp [emitG, dinsert_fresh hgk, dinsert_fresh hgn]
    have hk' : ∀ g' ∈ gs, dlookup (keyOf g') (hy ++ [(keyOf g, textOf g)]) = none := by
      intro g' hg'
      have h1 : dlookup (keyOf g') hy = none := hk g' (List.mem_cons_of_mem _ hg')
      have hne : keyOf g' ≠ keyOf g := by
        have hnotm := (List.nodup_cons.mp ndk).1
        intro e
        exact hnotm (e ▸ List.mem_map_of_mem keyOf hg')
      rw [dlookup_append_none _ _ h1, dlookup_single_ne hne]
    have hn' : ∀ g' ∈ gs, dlookup g'.number (hd ++ [(g.number, keyOf g)]) = none := by
      intro g' hg'
      have h1 : dlookup g'.number hd = none := hn g' (List.mem_cons_of_mem _ hg')
      have hne : g'.number ≠ g.number := by
        have hnotm := (List.nodup_cons.mp ndn).1
        intro e
        exact hnotm (e ▸ List.mem_map_of_mem Group.number hg')
      rw [dlookup_append_none _ _ h1, dlookup_single_ne hne]
    show gs.foldl emitG (emitG (hy, hd) g) = _
    rw [e1, ih _ _ hk' hn' (List.nodup_cons.mp ndk).2 (List.nodup_cons.mp ndn).2]
    simp

/-! ### Claim C6 — parse round-trip -/

/-- Claim C6: a well-formed source of `N` header/title/body groups
(with, per the corpus invariant, pairwise-distinct numbers and keys)
loads to exactly `N` records in order: the hymns dict maps each
group's derived key to its stripped non-blank body lines joined by
newlines, and the number dict maps each header's number token to that
key.  Blank body lines are dropped and appear in no record. -/
theorem C6_parse_roundtrip (gs : List Group)
    (hwf : ∀ g ∈ gs, WF g)
    (hkeys : (gs.map keyOf).Nodup)
    (hnums : (gs.map Group.number).Nodup) :
    load_hymns (linesOf gs)
      = (gs.map (fun g => (keyOf g, textOf g)), gs.map (fun g => (g.number, keyOf g))) := by
  have h1 := emit_foldl_groups gs initState hwf
  have h2 := foldl_emitG_spec gs [] []
    (fun _ _ => rfl) (fun _ _ => rfl) hkeys hnums
  have h0 : emit initState = ([], []) := rfl
  unfold load_hymns
  rw [show List.foldl stepLine initState (linesOf gs) = (linesOf gs).foldl stepLine initState
      from rfl]
  rw [h1, h0, h2]
  simp

/-- Witness for `C6_parse_roundtrip`: two groups, one containing a
blank line and a padded line in its body. -/
theorem C6_parse_roundtrip_witness :
    load_hymns (linesOf [⟨"1", "Amazing Song", ["line one", "", "  line two  "]⟩,
        ⟨"2", "Second Song", ["only line"]⟩])
      = ([⟨"1", "Amazing Song", ["line one", "", "  line two  "]⟩,
          ⟨"2", "Second Song", ["only line"]⟩].map (fun g => (keyOf g, textOf g)),
         [⟨"1", "Amazing Song", ["line one", "", "  line two  "]⟩,
          ⟨"2", "Second Song", ["only line"]⟩].map (fun g => (g.number, keyOf g))) :=
  C6_parse_roundtrip
    [⟨"1", "Amazing Song", ["line one", "", "  line two  "]⟩,
     ⟨"2", "Second Song", ["only line"]⟩]
    (by decide) (by decide) (by decide)

/-! ### Claim C7 — dangling-record discard -/

/-- Claim C7: a trailing group that never gets a title (a final header
followed by non-header, non-title lines), or one whose malformed
header carried no number token (at most two space-separated parts,
however many title and body lines follow), contributes nothing: the
loaded corpus equals that of the source without the trailing group.
No placeholder record is fabricated. -/
theorem C7_dangling_discard (ls : List String) (hdr : String) (trailing : List String)
    (hhdr : pyStarts (pyStrip hdr) "# GHS" = true) :
    ((∀ l ∈ trailing,
        pyStarts (pyStrip l) "# GHS" = false ∧ pyStarts (pyStrip l) "Title:" = false) →
      load_hymns (ls ++ hdr :: trailing) = load_hymns ls)
    ∧ ((pySplitSp (pyStrip hdr)).length ≤ 2 →
      (∀ l ∈ trailing, pyStarts (pyStrip l) "# GHS" = false) →
      load_hymns (ls ++ hdr :: trailing) = load_hymns ls) := by
  have hsplit : load_hymns (ls ++ hdr :: trailing)
      = emit (trailing.foldl stepLine (stepLine (ls.foldl stepLine initState) hdr)) := by
    unfold load_hymns
    rw [List.foldl_append]
    rfl
  have hstep : stepLine (ls.foldl stepLine initState) hdr
      = { num := headerNum (pyStrip hdr), ti := none, lyr := [],
          hy := (emit (ls.foldl stepLine initState)).1,
          hd := (emit (ls.foldl stepLine initState)).2 } :=
    stepLine_header _ hhdr
  constructor
  · intro htr
    rw [hsplit, hstep, foldl_body_only _ _ htr, emit_of_ti_none _ rfl]
    unfold load_hymns
    rfl
  · intro hlen htr
    have hnum : headerNum (pyStrip hdr) = none := by
      unfold headerNum
      rw [if_neg (by omega)]
    obtain ⟨e1, e2, e3⟩ :=
      foldl_nonheader trailing (stepLine (ls.foldl stepLine initState) hdr) htr
    have hnum' : (trailing.foldl stepLine (stepLine (ls.foldl stepLine initState) hdr)).num
        = none := by
      rw [e1, hstep, hnum]
    rw [hsplit, emit_of_num_none _ hnum', e2, e3, hstep]
    unfold load_hymns
    rfl

/-- Witness for `C7_dangling_discard`: a complete group followed by a
final header with body lines but no title loads identically to the
complete group alone. -/
theorem C7_dangling_discard_witness :
    load_hymns (["# GHS 7", "Title: First", "hello"] ++ "# GHS 8" :: ["orphan body line"])
      = load_hymns ["# GHS 7", "Title: First", "hello"] :=
  (C7_dangling_discard ["# GHS 7", "Title: First", "hello"] "# GHS 8" ["orphan body line"]
    (by decide)).1 (by decide)

end GHS


namespace GHS

/-! ### Helper lemmas -/

/-- An all-digits query is in particular non-empty, hence truthy. -/
theorem pyBool_of_pyIsDigit {q : String} (h : pyIsDigit q = true) : pyBool q = true := by
  unfold pyIsDigit at h
  unfold pyBool
  have h' : (!q.data.isEmpty) = true ∧ q.data.all isDig = true := by simpa using h
  exact h'.1

/-- A one-character substring hit means that character occurs in the
text. -/
theorem mem_of_hasSub_single {c : Char} : ∀ {l : List Char}, hasSubAux [c] l = true → c ∈ l := by
  intro l
  induction l with
  | nil => intro h; simp [hasSubAux, matchesAt] at h
  | cons a t ih =>
    intro h
    simp only [hasSubAux, matchesAt, Bool.and_true, Bool.or_eq_true] at h
    rcases h with h | h
    · have : c = a := by simpa using h
      simp [this]
    · exact List.mem_cons_of_mem _ (ih h)

/-- `":" in q` puts an actual colon among `q`'s characters. -/
theorem colon_mem_of_strIn {q : String} (h : strIn ":" q = true) : ':' ∈ q.data :=
  mem_of_hasSub_single (h : hasSubAux [':'] q.data = true)

/-- A query containing a colon is not all digits. -/
theorem pyIsDigit_false_of_colon {q : String} (h : ':' ∈ q.data) : pyIsDigit q = false := by
  cases ha : q.data.all isDig with
  | false => simp [pyIsDigit, ha]
  | true =>
    have hd := List.all_eq_true.mp ha ':' h
    exact absurd hd (by decide)

/-- A query containing a colon is non-empty, hence truthy. -/
theorem pyBool_of_colon {q : String} (h : ':' ∈ q.data) : pyBool q = true := by
  cases hd : q.data with
  | nil => rw [hd] at h; cases h
  | cons a t => simp [pyBool, hd]

/-! ### Claim C1 — exact-number precedence -/

/-- Claim C1 (amended): the code performs no trimming and no
catalog-prefix stripping before the hymn-number branch; the branch
fires exactly when the raw query is itself all digits and a key of
`hymn_dict`.  For such a query the handler displays exactly that
record's stored text, and no other strategy runs (the outcome is the
same for every similarity function and every scripture oracle). -/
theorem C1_exact_number (sim : String → List ℚ) (api : String → ApiOutcome)
    (ts ls : List String) (hymns hymn_dict : Dict) (q key lyrics : String)
    (hq : pyIsDigit q = true) (hk : dlookup q hymn_dict = some key)
    (hl : dlookup key hymns = some lyrics) :
    search sim api ts ls hymns hymn_dict q = Outcome.hymnText key lyrics := by
  have hpb := pyBool_of_pyIsDigit hq
  simp [search, hpb, hq, hk, hl]

/-- Witness for `C1_exact_number` at a concrete corpus and query. -/
theorem C1_exact_number_witness :
    search (fun _ => []) (fun _ => ApiOutcome.raise) [] [] [("GHS 12 - X", "la la")]
      [("12", "GHS 12 - X")] "12" = Outcome.hymnText "GHS 12 - X" "la la" :=
  C1_exact_number (fun _ => []) (fun _ => ApiOutcome.raise) [] [] [("GHS 12 - X", "la la")]
    [("12", "GHS 12 - X")] "12" "GHS 12 - X" "la la" (by decide) (by decide) (by decide)

/-- Counterexample to claim C1 as stated: the query `"GHS 12"` strips
(per the claim) to `"12"`, which is a key of the mapping (second
conjunct), so the claim demands the single exact record with
confidence 1.0.  The code never strips the catalog prefix: the query
falls through to the semantic fallback and yields three
recommendations, none with confidence 1. -/
theorem C1_exact_number_counterexample :
    search (fun _ => [(7 : ℚ), 5, 3]) (fun _ => ApiOutcome.raise)
        ["GHS 12 - X", "B", "C"] ["abc", "def", "ghi"]
        [("GHS 12 - X", "abc")] [("12", "GHS 12 - X")] "GHS 12"
      = Outcome.recs [("GHS 12 - X", "abc", 7), ("B", "def", 5), ("C", "ghi", 3)]
    ∧ dlookup "12" [("12", "GHS 12 - X")] = some "GHS 12 - X"
    ∧ (∀ r ∈ [("GHS 12 - X", "abc", (7 : ℚ)), ("B", "def", 5), ("C", "ghi", 3)],
        r.2.2 ≠ (1 : ℚ))
    ∧ Outcome.recs [("GHS 12 - X", "abc", (7 : ℚ)), ("B", "def", 5), ("C", "ghi", 3)]
      ≠ Outcome.hymnText "GHS 12 - X" "abc" := by
  decide

/-! ### Claim C2 — scripture-reference branch -/

/-- Claim C2 (amended): the Bible branch triggers on any query with a
digit and a colon, and calls the oracle on the whole query, not on an
extracted reference substring.  A truthy oracle result becomes the
entire search text for the later strategies (the rest of the query is
discarded, not substituted into); a falsy or not-found result makes
the handler search with the original query verbatim, raw reference
included. -/
theorem C2_scripture_branch (sim : String → List ℚ) (api : String → ApiOutcome)
    (ts ls : List String) (hymns hymn_dict : Dict) (q : String)
    (hdig : q.data.any isDig = true) (hcol : strIn ":" q = true) :
    (∀ bt, fetch_bible_verse api q = some bt → pyBool bt = true →
        search sim api ts ls hymns hymn_dict q = recsOut (find_best_hymns sim bt ts ls))
    ∧ (∀ bt, fetch_bible_verse api q = some bt → pyBool bt = false →
        search sim api ts ls hymns hymn_dict q = recsOut (find_best_hymns sim q ts ls))
    ∧ (fetch_bible_verse api q = none →
        search sim api ts ls hymns hymn_dict q = recsOut (find_best_hymns sim q ts ls)) := by
  have hc : ':' ∈ q.data := colon_mem_of_strIn hcol
  have hpb : pyBool q = true := pyBool_of_colon hc
  have hpd : pyIsDigit q = false := pyIsDigit_false_of_colon hc
  refine ⟨?_, ?_, ?_⟩
  · intro bt hbt htr
    simp [search, hpb, hpd, hdig, hcol, hbt, htr]
  · intro bt hbt hfa
    simp [search, hpb, hpd, hdig, hcol, hbt, hfa]
  · intro hbt
    simp [search, hpb, hpd, hdig, hcol, hbt]

/-- Witness for `C2_scripture_branch`: a successful oracle call makes
the returned verse text the whole search string. -/
theorem C2_scripture_branch_witness :
    search (fun _ => [(7 : ℚ)]) (fun _ => ApiOutcome.json [("text", "For God so loved")])
        ["A"] ["For God so loved"] [] [] "John 3:16"
      = recsOut (find_best_hymns (fun _ => [(7 : ℚ)]) "For God so loved"
          ["A"] ["For God so loved"]) :=
  (C2_scripture_branch (fun _ => [(7 : ℚ)])
      (fun _ => ApiOutcome.json [("text", "For God so loved")])
      ["A"] ["For God so loved"] [] [] "John 3:16" (by decide) (by decide)).1
    "For God so loved" (by decide) (by decide)

/-- Counterexample to claim C2 as stated: the oracle fails on
`"q John 3:16"`, and the claim demands that the reference be removed,
making `"q "` the search text — which would substring-match the first
record with confidence 1.  The code instead searches with the raw
query, reference included, which matches nothing literally and so
returns the three semantic recommendations.  The two outcomes differ,
so the raw unresolved reference *was* used as search text. -/
theorem C2_scripture_branch_counterexample :
    search (fun _ => [(7 : ℚ), 5, 3]) (fun _ => ApiOutcome.raise)
        ["A", "B", "C"] ["alpha q beta", "xx", "yy"] [] [] "q John 3:16"
      = Outcome.recs [("A", "alpha q beta", 7), ("B", "xx", 5), ("C", "yy", 3)]
    ∧ recsOut (find_best_hymns (fun _ => [(7 : ℚ), 5, 3]) "q " ["A", "B", "C"]
        ["alpha q beta", "xx", "yy"])
      = Outcome.recs [("A", "alpha q beta", 1)]
    ∧ Outcome.recs [("A", "alpha q beta", (7 : ℚ)), ("B", "xx", 5), ("C", "yy", 3)]
      ≠ Outcome.recs [("A", "alpha q beta", 1)] := by
  decide

/-! ### Claim C5 — empty-query rejection -/

/-- Claim C5 (amended): only the genuinely empty query is rejected
with the warning (Python string truthiness); the guard does not trim,
so the amended claim covers `""` alone, and no strategy runs there
(the outcome is the warning for every similarity function, oracle and
corpus). -/
theorem C5_empty_query (sim : String → List ℚ) (api : String → ApiOutcome)
    (ts ls : List String) (hymns hymn_dict : Dict) :
    search sim api ts ls hymns hymn_dict "" = Outcome.warning := rfl

/-- Counterexample to claim C5 as stated: the whitespace-only query
`"   "` is not rejected — the strategies run and produce a
(substring-match) result list instead of the warning. -/
theorem C5_empty_query_counterexample :
    search (fun _ => []) (fun _ => ApiOutcome.raise) ["A"] ["a   b"] [] [] "   "
      = Outcome.recs [("A", "a   b", 1)]
    ∧ Outcome.recs [("A", "a   b", (1 : ℚ))] ≠ Outcome.warning := by
  decide

/-! ### Claim C8 — unreadable corpus source -/

/-- Claim C8 (amended): only a *missing* file (`FileNotFoundError`) is
caught: the loader then returns the empty corpus and the empty mapping
instead of raising. -/
theorem C8_source_unavailable : load_hymns_from ReadResult.fileNotFound = some ([], []) := rfl

/-- Counterexample to claim C8 as stated: a source that is unreadable
for any other reason (permissions, undecodable bytes) is not caught —
the exception escapes the loader (`none`) rather than degrading to the
empty corpus. -/
theorem C8_source_unavailable_counterexample :
    load_hymns_from ReadResult.otherFailure = none
    ∧ load_hymns_from ReadResult.otherFailure ≠ some ([], []) := by
  decide

/-! ### Claim C9 — scripture oracle failure collapse -/

/-- Claim C9: for every reference, the resolver returns the response's
`text` field if present, else its `summary` field if present, and in
every other case — neither field, or a raised transport/parse
exception — it returns `None` without propagating the exception. -/
theorem C9_oracle_collapse (api : String → ApiOutcome) (reference : String) :
    (api (urlOf reference) = ApiOutcome.raise → fetch_bible_verse api reference = none)
    ∧ (∀ data t, api (urlOf reference) = ApiOutcome.json data →
        dlookup "text" data = some t → fetch_bible_verse api reference = some t)
    ∧ (∀ data s, api (urlOf reference) = ApiOutcome.json data →
        dlookup "text" data = none → dlookup "summary" data = some s →
        fetch_bible_verse api reference = some s)
    ∧ (∀ data, api (urlOf reference) = ApiOutcome.json data →
        dlookup "text" data = none → dlookup "summary" data = none →
        fetch_bible_verse api reference = none) := by
  refine ⟨?_, ?_, ?_, ?_⟩
  · intro h
    simp [fetch_bible_verse, h]
  · intro data t h ht
    simp [fetch_bible_verse, h, ht]
  · intro data s h ht hs
    simp [fetch_bible_verse, h, ht, hs]
  · intro data h ht hs
    simp [fetch_bible_verse, h, ht, hs]

/-- Witness for `C9_oracle_collapse`: a chapter-level response carrying
only a `summary` field resolves to that summary. -/
theorem C9_oracle_collapse_witness :
    fetch_bible_verse (fun _ => ApiOutcome.json [("summary", "In the beginning")]) "Genesis 1"
      = some "In the beginning" :=
  (C9_oracle_collapse (fun _ => ApiOutcome.json [("summary", "In the beginning")])
      "Genesis 1").2.2.1
    [("summary", "In the beginning")] "In the beginning" rfl (by decide) (by decide)

end GHS
